import Mathlib

/-!
Verification of the slot-based item dispenser: the slotted inventory store
(`src/inventory/inventory_manager.py`) and the dispensing workflow
(`src/vending_machine.py`).

Python dictionaries are embedded as insertion-ordered association lists with
unique keys; dictionary assignment updates an existing key in place and
appends a fresh key at the end, matching CPython's ordering guarantees.
Stateful methods are embedded as explicit state-passing functions; raised
`SysErr` exceptions become `Except String` results paired with the state the
object holds when the exception propagates.
-/

namespace Vending

/-- Association-list lookup, the embedding of Python's `d.get(k)` / `d[k]` /
`k in d` on a dict represented as an insertion-ordered list of pairs. -/
def alget {α β : Type} [DecidableEq α] (k : α) : List (α × β) → Option β
  | [] => none
  | (a, b) :: t => if a = k then some b else alget k t

/-- Association-list assignment, the embedding of Python's `d[k] = v`:
an existing key keeps its position and gets the new value; a fresh key is
appended at the end. -/
def alset {α β : Type} [DecidableEq α] (k : α) (v : β) : List (α × β) → List (α × β)
  | [] => [(k, v)]
  | (a, b) :: t => if a = k then (k, v) :: t else (a, b) :: alset k v t

/-- Modelled from the spec: the `Item` collaborator of
`src/models/product.py`, which is not under `src/`.  The spec (§3, §6) gives
it a unique string `code`, an integer quantity `count` and a monetary unit
price `val` (convertible to a decimal monetary amount, embedded as `ℚ`).
Its `check()`/`mod()` behaviours are supplied separately as oracles. -/
structure Item where
  code : String
  count : Int
  val : Rat
deriving DecidableEq

/-- The slotted inventory store of `src/inventory/inventory_manager.py`:
capacity `cap`, primary store `_data : Dict[str, Item]` and slot mapping
`_map : Dict[int, str]`. -/
structure Store where
  cap : Nat
  _data : List (String × Item)
  _map : List (Int × String)
deriving DecidableEq

/-- `Store.__init__(cap)`: empty primary store and slot mapping. -/
def Store.mk0 (cap : Nat) : Store :=
  { cap := cap, _data := [], _map := [] }

/-- The `for i in range(self.cap)` scan of `Store.put`: first position in
`0..cap-1`, in ascending order, that is not a key of `_map`. -/
def firstFree (cap : Nat) (m : List (Int × String)) : Option Nat :=
  (List.range cap).find? (fun i => (alget (i : Int) m).isNone)

/-- `Store.put(obj, pos=None)` of `src/inventory/inventory_manager.py`,
returning the Python result together with the store after the call. -/
def Store.put (s : Store) (obj : Item) (pos : Option Int) : Bool × Store :=
  match alget obj.code s._data with
  | some curr =>
      (true, { s with _data := alset obj.code { curr with count := curr.count + obj.count } s._data })
  | none =>
    match pos with
    | some p =>
        if p < 0 ∨ (s.cap : Int) ≤ p then (false, s)
        else if (alget p s._map).isSome then (false, s)
        else (true, { s with _map := alset p obj.code s._map,
                             _data := alset obj.code obj s._data })
    | none =>
        match firstFree s.cap s._map with
        | some i => (true, { s with _map := alset (i : Int) obj.code s._map,
                                    _data := alset obj.code obj s._data })
        | none => (false, s)

/-- `Store.rm(code)`: absent code fails; otherwise every slot-mapping entry
whose value is `code` is deleted and the code is deleted from `_data`. -/
def Store.rm (s : Store) (code : String) : Bool × Store :=
  match alget code s._data with
  | none => (false, s)
  | some _ => (true, { s with _map := s._map.filter (fun kv => kv.2 ≠ code),
                              _data := s._data.filter (fun kv => kv.1 ≠ code) })

/-- `Store.get(code)`: pure lookup in the primary store. -/
def Store.get (s : Store) (code : String) : Option Item :=
  alget code s._data

/-- `Store.get_at(pos)` resolved to the `(code, item)` pair, used by the
workflow where Python aliases the dict entry. -/
def Store.lookupAt (s : Store) (pos : Int) : Option (String × Item) :=
  match alget pos s._map with
  | none => none
  | some code =>
    match alget code s._data with
    | none => none
    | some item => some (code, item)

/-- `Store.get_at(pos)`: position → code → item, `None` when either hop is
missing. -/
def Store.get_at (s : Store) (pos : Int) : Option Item :=
  (s.lookupAt pos).map Prod.snd

/-- `Store.find(code)`: first key of `_map` (in insertion order) whose value
is `code`. -/
def Store.find (s : Store) (code : String) : Option Int :=
  (s._map.find? (fun kv => kv.2 = code)).map Prod.fst

/-- A sequence of `put` calls applied in order, used to state the capacity
invariant over all sequences of `put`. -/
def applyPuts (s : Store) : List (Item × Option Int) → Store
  | [] => s
  | (obj, pos) :: rest => applyPuts (s.put obj pos).2 rest

/-- Modelled from the spec: the transaction status enumeration of
`src/payment/payment_processor.py`, which is not under `src/`.  The spec
(§3, §6) requires a closed enumeration with a single success terminal value
(`DONE`, the workflow compares against `TxStatus.DONE`) and at least one
failure variant. -/
inductive TxStatus
  | DONE
  | FAILED
deriving DecidableEq

/-- Modelled from the spec: the `Tx` value object of
`src/payment/payment_processor.py`, which is not under `src/`: a `status`
(`st`, as the workflow reads `tx.st`) and an optional failure `message`
(`msg`, as the workflow reads `tx.msg`). -/
structure Tx where
  st : TxStatus
  msg : Option String
deriving DecidableEq

/-- Modelled from the spec: the payment-handler collaborator interface of
`src/payment/payment_processor.py`, which is not under `src/`.  The base
capability set is `process(amount) -> Tx` (`proc`) and `reverse(tx) -> bool`
(`rev`); the cash-capable variant additionally offers `settle()` (`ret`).
A handler is a deterministic state machine over a state type `H`; `isCash`
embes the workflow's `isinstance(self.h, Cash)` capability test. -/
structure HandlerOps (H : Type) where
  proc : H → Rat → H × Tx
  rev : H → Tx → H × Bool
  isCash : Bool
  ret : H → H × Option Rat

/-- Ghost trace of collaborator invocations a workflow call performs, used
to state how often and with which arguments the handler was invoked. -/
inductive HEvent
  | procE (amt : Rat) (tx : Tx)
  | revE (tx : Tx) (ok : Bool)
  | retE (change : Option Rat)
deriving DecidableEq

/-- Number of `reverse` invocations recorded in a trace. -/
def revCount (evs : List HEvent) : Nat :=
  (evs.filter fun e => match e with | .revE _ _ => true | _ => false).length

/-- The workflow state of `Sys` in `src/vending_machine.py`: the store, the
handler state and the active-transaction field `_tx`. -/
structure Sys (H : Type) where
  store : Store
  h : H
  _tx : Option Tx

/-- `Sys.pick(pos)` of `src/vending_machine.py`: resolve the position via
`get_at`, raise `invalid pos` when empty, `unavailable` when the item fails
its validity check (`check` is the item collaborator's oracle). -/
def Sys.pick {H : Type} (check : Item → Bool) (s : Sys H) (pos : Int) :
    Except String Item :=
  match s.store.get_at pos with
  | none => Except.error "invalid pos"
  | some item =>
    if check item then Except.ok item else Except.error "unavailable"

/-- Python's `tx.msg or 'tx failed'`: the handler's message unless it is
absent or empty (both falsy), in which case the generic message. -/
def msgOr (tx : Tx) : String :=
  match tx.msg with
  | some m => if m = "" then "tx failed" else m
  | none => "tx failed"

/-- `Sys.buy(pos)` of `src/vending_machine.py`, with the item collaborator's
`check`/`mod` oracles (`mod` returns the mutated item and the dispense
result, and the mutation lands on the aliased `_data` entry).  Returns the
state after the call, the trace of handler invocations, and either the
`(item, change)` pair or the raised `SysErr` message. -/
def Sys.buy {H : Type} (ops : HandlerOps H) (check : Item → Bool)
    (mod : Item → Item × Bool) (s : Sys H) (pos : Int) :
    Sys H × List HEvent × Except String (Item × Option Rat) :=
  match s.store.lookupAt pos with
  | none => (s, [], Except.error "invalid pos")
  | some (code, item) =>
    if check item = false then (s, [], Except.error "unavailable")
    else if (ops.proc s.h item.val).2.st ≠ TxStatus.DONE then
      ({ s with h := (ops.proc s.h item.val).1,
                _tx := some (ops.proc s.h item.val).2 },
       [HEvent.procE item.val (ops.proc s.h item.val).2],
       Except.error (msgOr (ops.proc s.h item.val).2))
    else if (mod item).2 = false then
      ({ s with store := { s.store with _data := alset code (mod item).1 s.store._data },
                h := (ops.rev (ops.proc s.h item.val).1 (ops.proc s.h item.val).2).1,
                _tx := some (ops.proc s.h item.val).2 },
       [HEvent.procE item.val (ops.proc s.h item.val).2,
        HEvent.revE (ops.proc s.h item.val).2
          (ops.rev (ops.proc s.h item.val).1 (ops.proc s.h item.val).2).2],
       Except.error "dispense failed")
    else if ops.isCash then
      ({ s with store := { s.store with _data := alset code (mod item).1 s.store._data },
                h := (ops.ret (ops.proc s.h item.val).1).1,
                _tx := some (ops.proc s.h item.val).2 },
       [HEvent.procE item.val (ops.proc s.h item.val).2,
        HEvent.retE (ops.ret (ops.proc s.h item.val).1).2],
       Except.ok ((mod item).1, (ops.ret (ops.proc s.h item.val).1).2))
    else
      ({ s with store := { s.store with _data := alset code (mod item).1 s.store._data },
                h := (ops.proc s.h item.val).1,
                _tx := some (ops.proc s.h item.val).2 },
       [HEvent.procE item.val (ops.proc s.h item.val).2],
       Except.ok ((mod item).1, none))

/-- `Sys.cancel()` of `src/vending_machine.py`: `no tx` when `_tx` is empty;
otherwise reverse the active transaction, `rev failed` (leaving `_tx` set)
when the handler reports failure, and only then settle a cash handler and
clear `_tx`. -/
def Sys.cancel {H : Type} (ops : HandlerOps H) (s : Sys H) :
    Sys H × List HEvent × Except String (Option Rat) :=
  match s._tx with
  | none => (s, [], Except.error "no tx")
  | some tx =>
    if (ops.rev s.h tx).2 = false then
      ({ s with h := (ops.rev s.h tx).1 },
       [HEvent.revE tx (ops.rev s.h tx).2], Except.error "rev failed")
    else if ops.isCash then
      ({ s with h := (ops.ret (ops.rev s.h tx).1).1, _tx := none },
       [HEvent.revE tx (ops.rev s.h tx).2,
        HEvent.retE (ops.ret (ops.rev s.h tx).1).2],
       Except.ok (ops.ret (ops.rev s.h tx).1).2)
    else
      ({ s with h := (ops.rev s.h tx).1, _tx := none },
       [HEvent.revE tx (ops.rev s.h tx).2], Except.ok none)

/-! ### Concrete fixtures used to exercise the definitions -/

/-- A concrete item: code `"a"`, five units, price 1.50. -/
def itemA : Item :=
  { code := "a", count := 5, val := (3 : Rat) / 2 }

/-- A concrete item: code `"b"`, two units, price 1. -/
def itemB : Item :=
  { code := "b", count := 2, val := 1 }

/-- Validity oracle of an item collaborator whose `check()` always passes. -/
def chkAll : Item → Bool := fun _ => true

/-- Consumption oracle of an item collaborator whose `mod()` decrements the
count and reports success. -/
def modDec : Item → Item × Bool :=
  fun it => ({ it with count := it.count - 1 }, true)

/-- Consumption oracle of an item collaborator whose `mod()` mutates nothing
and reports failure. -/
def modFail : Item → Item × Bool := fun it => (it, false)

/-- A store of capacity 20 holding `itemA` at position 0. -/
def storeOne : Store :=
  { cap := 20, _data := [("a", itemA)], _map := [(0, "a")] }

/-- A successful transaction record. -/
def doneTx : Tx := { st := TxStatus.DONE, msg := none }

/-- A failed transaction record with the handler's message. -/
def failTx : Tx := { st := TxStatus.FAILED, msg := some "insufficient funds" }

/-- A stateless non-cash handler whose `process` succeeds and whose
`reverse` succeeds. -/
def okOps : HandlerOps Unit :=
  { proc := fun _ _ => ((), doneTx),
    rev := fun _ _ => ((), true),
    isCash := false,
    ret := fun h => (h, none) }

/-- A stateless non-cash handler whose `process` yields `failTx`. -/
def failOps : HandlerOps Unit :=
  { proc := fun _ _ => ((), failTx),
    rev := fun _ _ => ((), true),
    isCash := false,
    ret := fun h => (h, none) }

/-- A stateless non-cash handler whose `reverse` reports failure. -/
def revFailOps : HandlerOps Unit :=
  { proc := fun _ _ => ((), doneTx),
    rev := fun _ _ => ((), false),
    isCash := false,
    ret := fun h => (h, none) }

/-- An idle workflow over `storeOne`. -/
def sysOne : Sys Unit := { store := storeOne, h := (), _tx := none }

/-- A workflow over `storeOne` with an active (already successful)
transaction. -/
def sysPending : Sys Unit := { store := storeOne, h := (), _tx := some doneTx }

/-! ### Association-list lemmas -/

theorem alget_alset_self {α β : Type} [DecidableEq α] (k : α) (v : β) :
    ∀ l : List (α × β), alget k (alset k v l) = some v := by
  intro l
  induction l with
  | nil => simp [alget, alset]
  | cons hd t ih =>
    by_cases h : hd.1 = k
    · simp [alget, alset, h]
    · simp [alget, alset, h, ih]

theorem alget_alset_ne {α β : Type} [DecidableEq α] (k k' : α) (v : β)
    (hne : k' ≠ k) : ∀ l : List (α × β), alget k' (alset k v l) = alget k' l := by
  intro l
  induction l with
  | nil => simp [alget, alset, Ne.symm hne]
  | cons hd t ih =>
    by_cases h : hd.1 = k
    · simp [alget, alset, h, Ne.symm hne]
    · simp [alget, alset, h, ih]

theorem alget_none_iff {α β : Type} [DecidableEq α] (k : α) :
    ∀ l : List (α × β), alget k l = none ↔ ∀ kv ∈ l, kv.1 ≠ k := by
  intro l
  induction l with
  | nil => simp [alget]
  | cons hd t ih =>
    by_cases h : hd.1 = k
    · simp [alget, h]
    · simp [alget, h, ih]

theorem alset_of_alget_none {α β : Type} [DecidableEq α] (k : α) (v : β)
    {l : List (α × β)} (h : alget k l = none) : alset k v l = l ++ [(k, v)] := by
  induction l with
  | nil => simp [alset]
  | cons hd t ih =>
    by_cases hh : hd.1 = k
    · simp [alget, hh] at h
    · simp [alget, hh] at h
      simp [alset, hh, ih h]

theorem alget_mem {α β : Type} [DecidableEq α] {k : α} {v : β} :
    ∀ {l : List (α × β)}, alget k l = some v → (k, v) ∈ l := by
  intro l
  induction l with
  | nil => simp [alget]
  | cons hd t ih =>
    by_cases h : hd.1 = k
    · intro hg
      simp [alget, h] at hg
      cases hd
      simp_all
    · intro hg
      simp [alget, h] at hg
      exact List.mem_cons_of_mem _ (ih hg)

theorem alget_filter_ne_key {α β : Type} [DecidableEq α] (k : α)
    (p : α × β → Prop) [DecidablePred p] :
    ∀ l : List (α × β), (∀ v : β, ¬ p (k, v)) →
      alget k (l.filter fun kv => p kv) = none := by
  intro l hp
  induction l with
  | nil => simp [alget]
  | cons hd t ih =>
    by_cases h : p hd
    · have hk : hd.1 ≠ k := by
        intro he
        exact hp hd.2 (by
          cases hd
          simp_all)
      simp [List.filter_cons, h, alget, hk, ih]
    · simp [List.filter_cons, h, ih]

/-! ### Capacity invariant -/

/-- The well-formedness the `Store` maintains: slot-mapping keys are unique
(as Python dict keys are) and every key ever inserted by `put` lies in
`0..cap-1`. -/
def Store.Inv (s : Store) : Prop :=
  (s._map.map Prod.fst).Nodup ∧ ∀ kv ∈ s._map, 0 ≤ kv.1 ∧ kv.1 < (s.cap : Int)

theorem nodup_int_range_length (l : List Int) (cap : Nat) (hnd : l.Nodup)
    (hin : ∀ x ∈ l, 0 ≤ x ∧ x < (cap : Int)) : l.length ≤ cap := by
  have h1 : (l.map Int.toNat).Nodup := by
    refine List.Nodup.map_on ?_ hnd
    intro x hx y hy hxy
    have hx0 := (hin x hx).1
    have hy0 := (hin y hy).1
    omega
  have hsub : (l.map Int.toNat).toFinset ⊆ Finset.range cap := by
    intro n hn
    simp only [List.mem_toFinset, List.mem_map] at hn
    rcases hn with ⟨x, hx, rfl⟩
    have := hin x hx
    exact Finset.mem_range.2 (by omega)
  have hc := Finset.card_le_card hsub
  rw [List.toFinset_card_of_nodup h1, Finset.card_range] at hc
  simpa using hc

theorem firstFree_some {cap : Nat} {m : List (Int × String)} {i : Nat}
    (h : firstFree cap m = some i) :
    i < cap ∧ alget (i : Int) m = none := by
  unfold firstFree at h
  have hmem := List.mem_of_find?_eq_some h
  have hp := List.find?_some h
  simp only [Option.isNone_iff_eq_none, decide_eq_true_eq] at hp
  exact ⟨List.mem_range.1 hmem, hp⟩

theorem inv_extend {s : Store} {k : Int} {c : String}
    (d : List (String × Item)) (hnone : alget k s._map = none)
    (hk0 : 0 ≤ k) (hkc : k < (s.cap : Int)) (h : s.Inv) :
    Store.Inv { s with _map := alset k c s._map, _data := d } := by
  obtain ⟨hnd, hin⟩ := h
  unfold Store.Inv
  refine ⟨?_, ?_⟩
  · show (List.map Prod.fst (alset k c s._map)).Nodup
    rw [alset_of_alget_none k c hnone, List.map_append]
    refine List.Nodup.append hnd (by simp) ?_
    intro x hx hx2
    simp only [List.map_cons, List.map_nil, List.mem_singleton] at hx2
    simp only [List.mem_map] at hx
    rcases hx with ⟨kv, hkv, rfl⟩
    exact ((alget_none_iff k s._map).1 hnone kv hkv) hx2
  · intro kv hkv
    rw [show ({ s with _map := alset k c s._map, _data := d } : Store)._map
          = alset k c s._map from rfl,
        alset_of_alget_none k c hnone] at hkv
    rcases List.mem_append.1 hkv with hl | hr
    · exact hin kv hl
    · simp at hr
      rw [hr]
      exact ⟨hk0, hkc⟩

theorem put_preserves_inv (s : Store) (obj : Item) (pos : Option Int)
    (h : s.Inv) : ((s.put obj pos).2).Inv := by
  unfold Store.put
  cases hg : alget obj.code s._data with
  | some curr => exact h
  | none =>
    cases pos with
    | some p =>
      by_cases hrange : p < 0 ∨ (s.cap : Int) ≤ p
      · simp only [hrange, if_true]
        exact h
      · simp only [hrange, if_false]
        cases hq : alget p s._map with
        | some c => simpa [hq] using h
        | none =>
          simp only [hq, Option.isSome_none, Bool.false_eq_true, if_false]
          exact inv_extend _ hq (by omega) (by omega) h
    | none =>
      cases hf : firstFree s.cap s._map with
      | none => exact h
      | some i =>
        obtain ⟨hlt, hnone⟩ := firstFree_some hf
        exact inv_extend _ hnone (by omega) (by exact_mod_cast hlt) h

theorem put_cap_unchanged (s : Store) (obj : Item) (pos : Option Int) :
    ((s.put obj pos).2).cap = s.cap := by
  unfold Store.put
  cases alget obj.code s._data with
  | some curr => rfl
  | none =>
    cases pos with
    | some p =>
      by_cases hrange : p < 0 ∨ (s.cap : Int) ≤ p
      · simp [hrange]
      · by_cases hocc : (alget p s._map).isSome <;> simp [hrange, hocc]
    | none =>
      cases firstFree s.cap s._map <;> rfl

theorem applyPuts_inv (ops : List (Item × Option Int)) :
    ∀ s : Store, s.Inv → (applyPuts s ops).Inv := by
  induction ops with
  | nil => intro s h; exact h
  | cons hd t ih =>
    intro s h
    exact ih _ (put_preserves_inv s hd.1 hd.2 h)

theorem applyPuts_cap (ops : List (Item × Option Int)) :
    ∀ s : Store, (applyPuts s ops).cap = s.cap := by
  induction ops with
  | nil => intro s; rfl
  | cons hd t ih =>
    intro s
    rw [applyPuts, ih, put_cap_unchanged]

theorem store_mk0_inv (cap : Nat) : (Store.mk0 cap).Inv := by
  constructor
  · simp [Store.mk0]
  · intro kv hkv
    simp [Store.mk0] at hkv

theorem inv_length_le (s : Store) (h : s.Inv) : s._map.length ≤ s.cap := by
  obtain ⟨hnd, hin⟩ := h
  have hb := nodup_int_range_length (s._map.map Prod.fst) s.cap hnd ?_
  · simpa using hb
  · intro x hx
    rcases List.mem_map.1 hx with ⟨kv, hkv, rfl⟩
    exact hin kv hkv

theorem put_false_unchanged (s : Store) (obj : Item) (pos : Option Int)
    (h : (s.put obj pos).1 = false) : (s.put obj pos).2 = s := by
  unfold Store.put at *
  cases hg : alget obj.code s._data with
  | some curr => simp [hg] at h
  | none =>
    cases pos with
    | some p =>
      by_cases hrange : p < 0 ∨ (s.cap : Int) ≤ p
      · simp [hg, hrange]
      · cases hq : alget p s._map with
        | some c => simp [hg, hrange, hq]
        | none => simp [hg, hrange, hq] at h
    | none =>
      cases hf : firstFree s.cap s._map with
      | some i => simp [hg, hf] at h
      | none => simp [hg, hf]

theorem firstFree_none_occ {cap : Nat} {m : List (Int × String)}
    (h : firstFree cap m = none) :
    ∀ j : Nat, j < cap → (alget (j : Int) m).isSome := by
  intro j hj
  unfold firstFree at h
  have hx := List.find?_eq_none.1 h j (List.mem_range.2 hj)
  cases hq : alget (j : Int) m with
  | none => simp [hq] at hx
  | some c => rfl

theorem firstFree_min {m : List (Int × String)} :
    ∀ {cap i : Nat}, firstFree cap m = some i →
      ∀ j : Nat, j < i → (alget (j : Int) m).isSome := by
  intro cap
  induction cap with
  | zero =>
    intro i h
    simp [firstFree] at h
  | succ n ih =>
    intro i h j hj
    rw [firstFree, List.range_succ, List.find?_append] at h
    cases hf : (List.range n).find? (fun k : Nat => (alget (k : Int) m).isNone) with
    | some i' =>
      rw [hf] at h
      have hii : i' = i := by simpa using h
      exact ih (by rw [firstFree, hf, hii]) j hj
    | none =>
      rw [hf] at h
      simp only [Option.none_or, List.find?_singleton] at h
      by_cases hpn : (alget (n : Int) m).isNone = true
      · rw [if_pos hpn] at h
        injection h with hh
        subst hh
        have hx := List.find?_eq_none.1 hf j (List.mem_range.2 hj)
        cases hq : alget (j : Int) m with
        | none => simp [hq] at hx
        | some c => rfl
      · rw [if_neg hpn] at h
        cases h

/-! ### Claim theorems about the inventory store -/

/-- C6: for every sequence of `put` calls on a store constructed with
capacity `cap`, the number of occupied positions in the slot mapping never
exceeds `cap`; a `put` that cannot be placed — a new code whose explicit
`pos` is out of range or occupied, or a new code with `pos` omitted when no
position is free — returns `false` and leaves both the primary store and
the slot mapping unchanged; and any `put` returning `false` changes
nothing. -/
theorem capacity_invariant :
    (∀ (cap : Nat) (ops : List (Item × Option Int)),
        ((applyPuts (Store.mk0 cap) ops)._map).length ≤ cap)
  ∧ (∀ (s : Store) (obj : Item) (p : Int),
        alget obj.code s._data = none →
        (p < 0 ∨ (s.cap : Int) ≤ p ∨ (alget p s._map).isSome) →
        s.put obj (some p) = (false, s))
  ∧ (∀ (s : Store) (obj : Item),
        alget obj.code s._data = none →
        firstFree s.cap s._map = none →
        s.put obj none = (false, s))
  ∧ (∀ (s : Store) (obj : Item) (pos : Option Int),
        (s.put obj pos).1 = false →
          ((s.put obj pos).2)._data = s._data
          ∧ ((s.put obj pos).2)._map = s._map) := by
  refine ⟨?_, ?_, ?_, ?_⟩
  · intro cap ops
    have hinv := applyPuts_inv ops (Store.mk0 cap) (store_mk0_inv cap)
    have hlen := inv_length_le _ hinv
    rwa [applyPuts_cap] at hlen
  · intro s obj p hnew hcond
    unfold Store.put
    simp only [hnew]
    by_cases hr : p < 0 ∨ (s.cap : Int) ≤ p
    · rw [if_pos hr]
    · rw [if_neg hr]
      have hocc : (alget p s._map).isSome = true := by
        rcases hcond with h | h | h
        · exact absurd (Or.inl h) hr
        · exact absurd (Or.inr h) hr
        · exact h
      rw [if_pos hocc]
  · intro s obj hnew hff
    unfold Store.put
    simp only [hnew, hff]
  · intro s obj pos h
    rw [put_false_unchanged s obj pos h]
    exact ⟨rfl, rfl⟩

/-- Witness: placing a new code at the already occupied position 0 of
`storeOne` fails and changes nothing (the spec's scenario 1). -/
theorem capacity_invariant_witness :
    storeOne.put itemB (some 0) = (false, storeOne) :=
  capacity_invariant.2.1 storeOne itemB 0 rfl (Or.inr (Or.inr rfl))

/-- C7: putting an item whose code already exists returns `true`, increments
the existing item's count by the incoming count, consumes no slot position,
and leaves the code's position assignment unchanged. -/
theorem put_existing_code (s : Store) (obj curr : Item) (pos : Option Int)
    (h : alget obj.code s._data = some curr) :
    (s.put obj pos).1 = true
    ∧ ((s.put obj pos).2)._map = s._map
    ∧ ((s.put obj pos).2).get obj.code
        = some { curr with count := curr.count + obj.count }
    ∧ (∀ c : String, c ≠ obj.code → ((s.put obj pos).2).get c = s.get c)
    ∧ ((s.put obj pos).2).find obj.code = s.find obj.code := by
  unfold Store.put
  simp only [h]
  refine ⟨by trivial, by trivial, ?_, ?_, by trivial⟩
  · show alget obj.code (alset obj.code _ s._data) = _
    exact alget_alset_self _ _ _
  · intro c hc
    show alget c (alset obj.code _ s._data) = alget c s._data
    exact alget_alset_ne _ _ _ hc _

/-- Witness: restocking `itemA` into `storeOne` aggregates the count and
keeps the single position. -/
theorem put_existing_code_witness :
    (storeOne.put itemA none).1 = true
    ∧ ((storeOne.put itemA none).2)._map = storeOne._map
    ∧ ((storeOne.put itemA none).2).get itemA.code
        = some { itemA with count := itemA.count + itemA.count }
    ∧ (∀ c : String, c ≠ itemA.code →
        ((storeOne.put itemA none).2).get c = storeOne.get c)
    ∧ ((storeOne.put itemA none).2).find itemA.code = storeOne.find itemA.code :=
  put_existing_code storeOne itemA itemA none rfl

/-- C8: a `put` of a new code with `pos` omitted claims the first free
position of the ascending scan `0..cap-1`; when every position in that range
is occupied it returns `false` and mutates nothing. -/
theorem put_scan_first_free (s : Store) (obj : Item)
    (hnew : alget obj.code s._data = none) :
    (∀ i : Nat, firstFree s.cap s._map = some i →
        s.put obj none
          = (true, { s with _map := s._map ++ [((i : Int), obj.code)],
                            _data := s._data ++ [(obj.code, obj)] })
        ∧ i < s.cap
        ∧ alget (i : Int) s._map = none
        ∧ (∀ j : Nat, j < i → (alget (j : Int) s._map).isSome))
  ∧ (firstFree s.cap s._map = none →
        s.put obj none = (false, s)
        ∧ (∀ j : Nat, j < s.cap → (alget (j : Int) s._map).isSome)) := by
  constructor
  · intro i hf
    obtain ⟨hlt, hnone⟩ := firstFree_some hf
    refine ⟨?_, hlt, hnone, firstFree_min hf⟩
    unfold Store.put
    simp only [hnew, hf]
    rw [alset_of_alget_none _ _ hnone, alset_of_alget_none _ _ hnew]
  · intro hf
    refine ⟨?_, firstFree_none_occ hf⟩
    unfold Store.put
    simp only [hnew, hf]

/-- Witness: a new code lands in the first free slot of `storeOne`, which is
position 1 (position 0 is occupied). -/
theorem put_scan_first_free_witness :
    storeOne.put itemB none
      = (true, { storeOne with _map := storeOne._map ++ [((1 : Int), itemB.code)],
                               _data := storeOne._data ++ [(itemB.code, itemB)] })
    ∧ 1 < storeOne.cap
    ∧ alget ((1 : Nat) : Int) storeOne._map = none
    ∧ (∀ j : Nat, j < 1 → (alget (j : Int) storeOne._map).isSome) :=
  (put_scan_first_free storeOne itemB rfl).1 1 rfl

/-- C9: `rm(code)` fails on an absent code and otherwise removes the code
from the primary store and every slot-mapping entry referencing it, so that
`get` and `find` return empty and no position maps to the code. -/
theorem rm_complete (s : Store) (code : String) :
    (alget code s._data = none → s.rm code = (false, s))
  ∧ ((alget code s._data).isSome →
        (s.rm code).1 = true
        ∧ ((s.rm code).2).get code = none
        ∧ ((s.rm code).2).find code = none
        ∧ (∀ p : Int, alget p (((s.rm code).2)._map) ≠ some code)) := by
  constructor
  · intro h
    unfold Store.rm
    simp only [h]
  · intro h
    cases hq : alget code s._data with
    | none =>
      rw [hq] at h
      simp at h
    | some it =>
      unfold Store.rm
      simp only [hq]
      refine ⟨by trivial, ?_, ?_, ?_⟩
      · show alget code (s._data.filter fun kv => kv.1 ≠ code) = none
        cases hg : alget code (s._data.filter fun kv => kv.1 ≠ code) with
        | none => rfl
        | some v =>
          have hm := alget_mem hg
          have h2 := (List.mem_filter.1 hm).2
          simp at h2
      · show ((s._map.filter fun kv => kv.2 ≠ code).find?
            (fun kv => kv.2 = code)).map Prod.fst = none
        have hfind : (s._map.filter fun kv => kv.2 ≠ code).find?
            (fun kv => kv.2 = code) = none := by
          rw [List.find?_eq_none]
          intro kv hkv
          have h2 := (List.mem_filter.1 hkv).2
          simp at h2 ⊢
          exact h2
        rw [hfind]
        rfl
      · intro p hp
        have hm := alget_mem hp
        have h2 := (List.mem_filter.1 hm).2
        simp at h2

/-- Witness: removing `"a"` from `storeOne` clears the primary store and
every slot-mapping entry for it. -/
theorem rm_complete_witness :
    (storeOne.rm "a").1 = true
    ∧ ((storeOne.rm "a").2).get "a" = none
    ∧ ((storeOne.rm "a").2).find "a" = none
    ∧ (∀ p : Int, alget p (((storeOne.rm "a").2)._map) ≠ some "a") :=
  (rm_complete storeOne "a").2 rfl

/-- C10: when the code is already present, `put` returns `true` and only
increments the stored item's count — the primary store's sole change is the
in-place count increment of that code's entry, every other entry being
untouched; the `pos` argument is never validated, the result does not
depend on it, and the slot mapping is untouched even for an out-of-range,
negative or occupied `pos`. -/
theorem put_existing_ignores_pos (s : Store) (obj curr : Item)
    (h : alget obj.code s._data = some curr) :
    ∀ pos pos' : Option Int,
      s.put obj pos = s.put obj pos'
      ∧ (s.put obj pos).1 = true
      ∧ ((s.put obj pos).2)._map = s._map
      ∧ ((s.put obj pos).2)._data
          = alset obj.code { curr with count := curr.count + obj.count } s._data
      ∧ ((s.put obj pos).2).get obj.code
          = some { curr with count := curr.count + obj.count }
      ∧ (∀ c : String, c ≠ obj.code → ((s.put obj pos).2).get c = s.get c) := by
  intro pos pos'
  unfold Store.put
  simp only [h]
  refine ⟨by trivial, by trivial, by trivial, by trivial, ?_, ?_⟩
  · show alget obj.code (alset obj.code _ s._data) = _
    exact alget_alset_self _ _ _
  · intro c hc
    show alget c (alset obj.code _ s._data) = alget c s._data
    exact alget_alset_ne _ _ _ hc _

/-- Witness: restocking an existing code with a negative `pos` behaves like
restocking at the occupied position 0 — the `pos` is ignored and the only
store change is the count increment. -/
theorem put_existing_ignores_pos_witness :
    storeOne.put itemA (some (-7)) = storeOne.put itemA (some 0)
    ∧ (storeOne.put itemA (some (-7))).1 = true
    ∧ ((storeOne.put itemA (some (-7))).2)._map = storeOne._map
    ∧ ((storeOne.put itemA (some (-7))).2)._data
        = alset itemA.code { itemA with count := itemA.count + itemA.count } storeOne._data
    ∧ ((storeOne.put itemA (some (-7))).2).get itemA.code
        = some { itemA with count := itemA.count + itemA.count }
    ∧ (∀ c : String, c ≠ itemA.code →
        ((storeOne.put itemA (some (-7))).2).get c = storeOne.get c) :=
  put_existing_ignores_pos storeOne itemA itemA rfl (some (-7)) (some 0)

/-! ### Claim theorems about the dispensing workflow -/

/-- C1: if `buy(pos)` returns normally, the transaction produced by the
handler's `process` call for this purchase has the success terminal status
`DONE` and is held as the active transaction; `buy` never returns an item
when the status check did not pass. -/
theorem no_free_dispense {H : Type} (ops : HandlerOps H) (check : Item → Bool)
    (mod : Item → Item × Bool) (s : Sys H) (pos : Int)
    (s' : Sys H) (evs : List HEvent) (r : Item × Option Rat)
    (h : Sys.buy ops check mod s pos = (s', evs, Except.ok r)) :
    ∃ amt tx, HEvent.procE amt tx ∈ evs
      ∧ tx.st = TxStatus.DONE
      ∧ s'._tx = some tx
      ∧ (∀ amt' tx', HEvent.procE amt' tx' ∈ evs → tx' = tx) := by
  unfold Sys.buy at h
  cases hl : s.store.lookupAt pos with
  | none =>
    rw [hl] at h
    simp at h
  | some ci =>
    obtain ⟨code, item⟩ := ci
    simp only [hl] at h
    by_cases hc : check item = false
    · rw [if_pos hc] at h
      simp at h
    · rw [if_neg hc] at h
      by_cases htx : (ops.proc s.h item.val).2.st = TxStatus.DONE
      · rw [if_neg (by simp [htx])] at h
        by_cases hm : (mod item).2 = false
        · rw [if_pos hm] at h
          simp at h
        · rw [if_neg hm] at h
          by_cases hcash : ops.isCash = true
          · rw [if_pos hcash] at h
            simp only [Prod.mk.injEq] at h
            obtain ⟨hs, he, hr⟩ := h
            subst hs
            subst he
            refine ⟨item.val, (ops.proc s.h item.val).2, by simp, htx, rfl, ?_⟩
            intro amt' tx' hmem
            simp at hmem
            exact hmem.2
          · rw [if_neg hcash] at h
            simp only [Prod.mk.injEq] at h
            obtain ⟨hs, he, hr⟩ := h
            subst hs
            subst he
            refine ⟨item.val, (ops.proc s.h item.val).2, by simp, htx, rfl, ?_⟩
            intro amt' tx' hmem
            simp at hmem
            exact hmem.2
      · rw [if_pos htx] at h
        simp at h

/-- Witness: a successful purchase at position 0 of `storeOne`, whose
single `process` event carries the `DONE` transaction. -/
theorem no_free_dispense_witness :
    ∃ amt tx,
      HEvent.procE amt tx ∈ (Sys.buy okOps chkAll modDec sysOne 0).2.1
      ∧ tx.st = TxStatus.DONE
      ∧ (Sys.buy okOps chkAll modDec sysOne 0).1._tx = some tx
      ∧ (∀ amt' tx',
          HEvent.procE amt' tx' ∈ (Sys.buy okOps chkAll modDec sysOne 0).2.1 →
            tx' = tx) :=
  no_free_dispense okOps chkAll modDec sysOne 0
    (Sys.buy okOps chkAll modDec sysOne 0).1
    (Sys.buy okOps chkAll modDec sysOne 0).2.1
    ({ itemA with count := itemA.count - 1 }, none)
    rfl

/-- C2: when payment succeeds (`DONE` transaction) but the item's `mod()`
hook reports failure, `buy` invokes the handler's `reverse` exactly once
with that same transaction and raises the dispense-failed error; the store
changes only at the purchased code, to exactly what `mod` itself made of the
item. -/
theorem buy_dispense_failed {H : Type} (ops : HandlerOps H) (check : Item → Bool)
    (mod : Item → Item × Bool) (s : Sys H) (pos : Int)
    (code : String) (item : Item)
    (hl : s.store.lookupAt pos = some (code, item))
    (hc : check item = true)
    (htx : (ops.proc s.h item.val).2.st = TxStatus.DONE)
    (hm : (mod item).2 = false) :
    (Sys.buy ops check mod s pos).2.2 = Except.error "dispense failed"
    ∧ revCount (Sys.buy ops check mod s pos).2.1 = 1
    ∧ HEvent.revE (ops.proc s.h item.val).2
        (ops.rev (ops.proc s.h item.val).1 (ops.proc s.h item.val).2).2
        ∈ (Sys.buy ops check mod s pos).2.1
    ∧ alget code ((Sys.buy ops check mod s pos).1.store._data) = some ((mod item).1)
    ∧ (∀ c : String, c ≠ code →
        alget c ((Sys.buy ops check mod s pos).1.store._data)
          = alget c s.store._data)
    ∧ (Sys.buy ops check mod s pos).1._tx = some (ops.proc s.h item.val).2 := by
  have hmain : Sys.buy ops check mod s pos
      = ({ s with store := { s.store with _data := alset code (mod item).1 s.store._data },
                  h := (ops.rev (ops.proc s.h item.val).1 (ops.proc s.h item.val).2).1,
                  _tx := some (ops.proc s.h item.val).2 },
         [HEvent.procE item.val (ops.proc s.h item.val).2,
          HEvent.revE (ops.proc s.h item.val).2
            (ops.rev (ops.proc s.h item.val).1 (ops.proc s.h item.val).2).2],
         Except.error "dispense failed") := by
    unfold Sys.buy
    simp only [hl]
    rw [if_neg (by simp [hc]), if_neg (by simp [htx]), if_pos hm]
  refine ⟨by rw [hmain], by rw [hmain]; rfl, by rw [hmain]; simp, ?_, ?_, by rw [hmain]⟩
  · rw [hmain]
    exact alget_alset_self _ _ _
  · intro c hcne
    rw [hmain]
    exact alget_alset_ne _ _ _ hcne _

/-- Witness: a purchase whose `mod()` fails after a successful payment —
`reverse` fires once with the `DONE` transaction and the store keeps the
item exactly as `mod` left it. -/
theorem buy_dispense_failed_witness :
    (Sys.buy okOps chkAll modFail sysOne 0).2.2 = Except.error "dispense failed"
    ∧ revCount (Sys.buy okOps chkAll modFail sysOne 0).2.1 = 1
    ∧ HEvent.revE (okOps.proc sysOne.h itemA.val).2
        (okOps.rev (okOps.proc sysOne.h itemA.val).1 (okOps.proc sysOne.h itemA.val).2).2
        ∈ (Sys.buy okOps chkAll modFail sysOne 0).2.1
    ∧ alget "a" ((Sys.buy okOps chkAll modFail sysOne 0).1.store._data)
        = some ((modFail itemA).1)
    ∧ (∀ c : String, c ≠ "a" →
        alget c ((Sys.buy okOps chkAll modFail sysOne 0).1.store._data)
          = alget c sysOne.store._data)
    ∧ (Sys.buy okOps chkAll modFail sysOne 0).1._tx
        = some (okOps.proc sysOne.h itemA.val).2 :=
  buy_dispense_failed okOps chkAll modFail sysOne 0 "a" itemA rfl rfl rfl rfl

/-- C3: when the handler's `process` returns a transaction whose status is
not `DONE`, `buy` stores it as the active transaction before the outcome
check, raises the transaction-failed error carrying the handler's message
(the generic `"tx failed"` when absent), leaves the store — and so the
item's count — unchanged, and `_tx` still holds the failed transaction. -/
theorem buy_tx_failed {H : Type} (ops : HandlerOps H) (check : Item → Bool)
    (mod : Item → Item × Bool) (s : Sys H) (pos : Int)
    (code : String) (item : Item)
    (hl : s.store.lookupAt pos = some (code, item))
    (hc : check item = true)
    (htx : (ops.proc s.h item.val).2.st ≠ TxStatus.DONE) :
    Sys.buy ops check mod s pos
      = ({ s with h := (ops.proc s.h item.val).1,
                  _tx := some (ops.proc s.h item.val).2 },
         [HEvent.procE item.val (ops.proc s.h item.val).2],
         Except.error (msgOr (ops.proc s.h item.val).2))
    ∧ (Sys.buy ops check mod s pos).1.store = s.store
    ∧ (Sys.buy ops check mod s pos).1._tx = some (ops.proc s.h item.val).2 := by
  have hmain : Sys.buy ops check mod s pos
      = ({ s with h := (ops.proc s.h item.val).1,
                  _tx := some (ops.proc s.h item.val).2 },
         [HEvent.procE item.val (ops.proc s.h item.val).2],
         Except.error (msgOr (ops.proc s.h item.val).2)) := by
    unfold Sys.buy
    simp only [hl]
    rw [if_neg (by simp [hc]), if_pos htx]
  exact ⟨hmain, by rw [hmain], by rw [hmain]⟩

/-- Witness: a purchase whose payment fails with message
`"insufficient funds"` — the error carries the message, the store is
unchanged and `_tx` holds the failed transaction. -/
theorem buy_tx_failed_witness :
    Sys.buy failOps chkAll modDec sysOne 0
      = ({ sysOne with h := (failOps.proc sysOne.h itemA.val).1,
                       _tx := some (failOps.proc sysOne.h itemA.val).2 },
         [HEvent.procE itemA.val (failOps.proc sysOne.h itemA.val).2],
         Except.error (msgOr (failOps.proc sysOne.h itemA.val).2))
    ∧ (Sys.buy failOps chkAll modDec sysOne 0).1.store = sysOne.store
    ∧ (Sys.buy failOps chkAll modDec sysOne 0).1._tx
        = some (failOps.proc sysOne.h itemA.val).2 :=
  buy_tx_failed failOps chkAll modDec sysOne 0 "a" itemA rfl rfl (by decide)

/-- C5: `cancel` raises `no tx` when `_tx` is empty; with `_tx` set it
invokes the handler's `reverse` on that transaction, raising `rev failed`
and leaving `_tx` set (so `cancel` can be retried) when the handler reports
failure; only after a successful reversal is `_tx` cleared, returning the
cash handler's settled change or empty for a non-cash handler. -/
theorem cancel_spec {H : Type} (ops : HandlerOps H) (s : Sys H) :
    (s._tx = none → Sys.cancel ops s = (s, [], Except.error "no tx"))
  ∧ (∀ tx, s._tx = some tx → (ops.rev s.h tx).2 = false →
        Sys.cancel ops s
          = ({ s with h := (ops.rev s.h tx).1 },
             [HEvent.revE tx (ops.rev s.h tx).2], Except.error "rev failed")
        ∧ (Sys.cancel ops s).1._tx = some tx)
  ∧ (∀ tx, s._tx = some tx → (ops.rev s.h tx).2 = true →
        (Sys.cancel ops s).1._tx = none
        ∧ HEvent.revE tx true ∈ (Sys.cancel ops s).2.1
        ∧ (Sys.cancel ops s).2.2
            = Except.ok (if ops.isCash then (ops.ret (ops.rev s.h tx).1).2 else none)) := by
  refine ⟨?_, ?_, ?_⟩
  · intro h
    unfold Sys.cancel
    simp only [h]
  · intro tx h hf
    have hmain : Sys.cancel ops s
        = ({ s with h := (ops.rev s.h tx).1 },
           [HEvent.revE tx (ops.rev s.h tx).2], Except.error "rev failed") := by
      unfold Sys.cancel
      simp only [h]
      rw [if_pos hf]
    exact ⟨hmain, by rw [hmain]; exact h⟩
  · intro tx h ht
    have hfalse : ¬ ((ops.rev s.h tx).2 = false) := by simp [ht]
    by_cases hcash : ops.isCash = true
    · have hmain : Sys.cancel ops s
          = ({ s with h := (ops.ret (ops.rev s.h tx).1).1, _tx := none },
             [HEvent.revE tx (ops.rev s.h tx).2,
              HEvent.retE (ops.ret (ops.rev s.h tx).1).2],
             Except.ok (ops.ret (ops.rev s.h tx).1).2) := by
        unfold Sys.cancel
        simp only [h]
        rw [if_neg hfalse, if_pos hcash]
      refine ⟨by rw [hmain], by rw [hmain]; simp [ht], by rw [hmain]; simp [hcash]⟩
    · have hmain : Sys.cancel ops s
          = ({ s with h := (ops.rev s.h tx).1, _tx := none },
             [HEvent.revE tx (ops.rev s.h tx).2], Except.ok none) := by
        unfold Sys.cancel
        simp only [h]
        rw [if_neg hfalse, if_neg hcash]
      refine ⟨by rw [hmain], by rw [hmain]; simp [ht], by rw [hmain]; simp [hcash]⟩

/-- Witness: a `cancel` whose reversal fails leaves `_tx` set, allowing a
retry. -/
theorem cancel_spec_witness :
    Sys.cancel revFailOps sysPending
      = ({ sysPending with h := (revFailOps.rev sysPending.h doneTx).1 },
         [HEvent.revE doneTx (revFailOps.rev sysPending.h doneTx).2],
         Except.error "rev failed")
    ∧ (Sys.cancel revFailOps sysPending).1._tx = some doneTx :=
  (cancel_spec revFailOps sysPending).2.1 doneTx rfl rfl

/-- C4 counterexample: a `buy` whose payment fails raises an error yet
leaves `_tx` holding the failed transaction, so the §9 success-path bug is
not the sole resolution that fails to clear `_tx` — raised-error
resolutions keep it set as well. -/
theorem buy_error_keeps_tx_cex :
    (Sys.buy failOps chkAll modDec sysOne 0).2.2
        = Except.error "insufficient funds"
    ∧ (Sys.buy failOps chkAll modDec sysOne 0).1._tx = some failTx
    ∧ (Sys.buy failOps chkAll modDec sysOne 0).1._tx ≠ none :=
  ⟨rfl, rfl, by
    rw [show (Sys.buy failOps chkAll modDec sysOne 0).1._tx = some failTx from rfl]
    simp⟩

/-- C4 (amended): `_tx` becomes non-null only at a `buy` payment step and is
cleared only by a successful `cancel`: `buy` either fails before payment
(empty handler trace, `_tx` unchanged) or stores the processed transaction
in `_tx` and never clears it — on its error resolutions and, per the §9
bug, on its success path alike; `cancel` clears `_tx` exactly when it
returns successfully and leaves it unchanged when it raises. -/
theorem tx_lifecycle {H : Type} (ops : HandlerOps H) (check : Item → Bool)
    (mod : Item → Item × Bool) (s : Sys H) (pos : Int) :
    ((Sys.buy ops check mod s pos).2.1 = []
        ∧ (Sys.buy ops check mod s pos).1._tx = s._tx
      ∨ (∃ amt tx, HEvent.procE amt tx ∈ (Sys.buy ops check mod s pos).2.1
          ∧ (Sys.buy ops check mod s pos).1._tx = some tx))
  ∧ (∀ c, (Sys.cancel ops s).2.2 = Except.ok c →
        (Sys.cancel ops s).1._tx = none)
  ∧ (∀ e, (Sys.cancel ops s).2.2 = Except.error e →
        (Sys.cancel ops s).1._tx = s._tx) := by
  refine ⟨?_, ?_, ?_⟩
  · unfold Sys.buy
    cases hl : s.store.lookupAt pos with
    | none =>
      left
      exact ⟨rfl, rfl⟩
    | some ci =>
      obtain ⟨code, item⟩ := ci
      dsimp only
      by_cases hc : check item = false
      · rw [if_pos hc]
        left
        exact ⟨rfl, rfl⟩
      · rw [if_neg hc]
        by_cases htx : (ops.proc s.h item.val).2.st = TxStatus.DONE
        · rw [if_neg (by simp [htx])]
          by_cases hm : (mod item).2 = false
          · rw [if_pos hm]
            right
            exact ⟨item.val, (ops.proc s.h item.val).2, by simp, rfl⟩
          · rw [if_neg hm]
            by_cases hcash : ops.isCash = true
            · rw [if_pos hcash]
              right
              exact ⟨item.val, (ops.proc s.h item.val).2, by simp, rfl⟩
            · rw [if_neg hcash]
              right
              exact ⟨item.val, (ops.proc s.h item.val).2, by simp, rfl⟩
        · rw [if_pos htx]
          right
          exact ⟨item.val, (ops.proc s.h item.val).2, by simp, rfl⟩
  · intro c hok
    unfold Sys.cancel at hok ⊢
    cases h : s._tx with
    | none =>
      rw [h] at hok
      simp at hok
    | some tx =>
      simp only [h] at hok ⊢
      by_cases hf : (ops.rev s.h tx).2 = false
      · rw [if_pos hf] at hok
        simp at hok
      · rw [if_neg hf] at hok ⊢
        by_cases hcash : ops.isCash = true
        · rw [if_pos hcash]
        · rw [if_neg hcash]
  · intro e herr
    unfold Sys.cancel at herr ⊢
    cases h : s._tx with
    | none =>
      simp only [h]
    | some tx =>
      simp only [h] at herr ⊢
      by_cases hf : (ops.rev s.h tx).2 = false
      · rw [if_pos hf]
      · rw [if_neg hf] at herr
        by_cases hcash : ops.isCash = true
        · rw [if_pos hcash] at herr
          simp at herr
        · rw [if_neg hcash] at herr
          simp at herr

/-- Witness: a successful reversal through `cancel` clears `_tx`. -/
theorem tx_lifecycle_witness :
    (Sys.cancel okOps sysPending).1._tx = none :=
  (tx_lifecycle okOps chkAll modDec sysPending 0).2.1 none rfl

end Vending
